import Mathlib

/-!
Shallow embedding of the go-crypto-dot-com client library, covering the
adaptive rate limiter (pacer), the two request signers, the request
dispatchers with their HTTP-429 handling, the pagination loop and the
order-book accessors.  All definitions are translated from the Go source
files (`client.go`, `book.go` and the unnamed variant files); times and
rates are modelled as rationals, machine floats in the source hold only
exact values in the scenarios considered.
-/

namespace CryptoDotCom

/-! ### Pacer (client.go lines 22-66, unnamed/part_000 lines 20-64)

`RequestsPerSecond[RATE_LIMIT_NORMAL] = 100` and
`RequestsPerSecond[RATE_LIMIT_COOL_DOWN] = 0.01666666667`.
The package-level state is the `cooldown` flag and the `lastRequest`
timestamp; `rateLimitCount` instruments how often the `OnRateLimitError`
hook has run (it is ghost state used only by the statements). -/

def RequestsPerSecondNormal : ℚ := 100

def RequestsPerSecondCoolDown : ℚ := 0.01666666667

structure PacerState where
  cooldown : Bool
  lastRequest : ℚ
  rateLimitCount : ℕ
deriving DecidableEq

/-- Effective-rate resolution inside the default `BeforeRequest` hook
(client.go lines 48-53): if the cooldown flag is set it is cleared and the
cooldown rate is used; otherwise a zero `rps` argument falls back to the
normal rate, and a non-zero `rps` is used as given.  Returns the updated
state together with the effective rate. -/
def resolveRate (st : PacerState) (rps : ℚ) : PacerState × ℚ :=
  if st.cooldown then ({ st with cooldown := false }, RequestsPerSecondCoolDown)
  else if rps = 0 then (st, RequestsPerSecondNormal)
  else (st, rps)

/-- Sleep performed by `BeforeRequest` (client.go lines 54-56): when the
elapsed time since the last request is below `1/rps` seconds, sleep for the
remaining deficit, otherwise do not block.  The result is the blocking time
in seconds. -/
def sleepFor (elapsed rps : ℚ) : ℚ :=
  if elapsed < 1 / rps then 1 / rps - elapsed else 0

/-- The default `BeforeRequest` hook (client.go lines 46-58): resolve the
effective rate (consuming the cooldown flag) and block for the pacing
deficit.  Returns the updated state and the blocking time. -/
def beforeRequest (st : PacerState) (now rps : ℚ) : PacerState × ℚ :=
  ((resolveRate st rps).1, sleepFor (now - st.lastRequest) (resolveRate st rps).2)

/-- The default `AfterRequest` hook (client.go lines 59-61): record `now`
as the last-request timestamp. -/
def afterRequest (st : PacerState) (now : ℚ) : PacerState :=
  { st with lastRequest := now }

/-- The default `OnRateLimitError` hook (client.go lines 62-65): set the
cooldown flag.  The invocation counter is ghost instrumentation. -/
def onRateLimitError (st : PacerState) : PacerState :=
  { st with cooldown := true, rateLimitCount := st.rateLimitCount + 1 }

/-- The `BeforeRequest` hook of the early v1 client
(unnamed/part_001 lines 21, 27-33): a fixed global rate of 10 requests per
second and no cooldown mechanism.  Returns the blocking time. -/
def beforeRequestV1Simple (lastRequest now : ℚ) : ℚ :=
  sleepFor (now - lastRequest) 10

theorem resolveRate_fst (st : PacerState) (rps : ℚ) :
    (resolveRate st rps).1 = { st with cooldown := false } := by
  cases st with
  | mk c l n => cases c <;> by_cases h : rps = 0 <;> simp [resolveRate, h]

/-- C1: the effective rate used by `BeforeRequest` is resolved in this
order: an active cooldown flag is consumed (cleared) and forces the
cooldown rate; otherwise a non-zero requested rate is used; otherwise the
normal default rate is used.  Consequently, right after `OnRateLimitError`
the next `BeforeRequest` uses the cooldown rate and clears the flag, and
the call after that uses the normal/requested rate again. -/
theorem c1_rate_resolution (st : PacerState) (now rps rps' : ℚ) (h : rps ≠ 0) :
    (st.cooldown = true →
      resolveRate st rps = ({ st with cooldown := false }, RequestsPerSecondCoolDown)) ∧
    (st.cooldown = false → resolveRate st rps = (st, rps)) ∧
    (st.cooldown = false → resolveRate st 0 = (st, RequestsPerSecondNormal)) ∧
    beforeRequest st now rps
      = ((resolveRate st rps).1, sleepFor (now - st.lastRequest) (resolveRate st rps).2) ∧
    (resolveRate (onRateLimitError st) rps).2 = RequestsPerSecondCoolDown ∧
    (resolveRate (onRateLimitError st) rps).1.cooldown = false ∧
    (resolveRate ((resolveRate (onRateLimitError st) rps).1) rps').2
      = (if rps' = 0 then RequestsPerSecondNormal else rps') := by
  refine ⟨fun hc => ?_, fun hc => ?_, fun hc => ?_, rfl, ?_, ?_, ?_⟩
  · simp [resolveRate, hc]
  · simp [resolveRate, hc, h]
  · simp [resolveRate, hc]
  · simp [resolveRate, onRateLimitError]
  · simp [resolveRate, onRateLimitError]
  · simp [resolveRate, onRateLimitError]
    split <;> simp

theorem c1_rate_resolution_witness :
    (2 : ℚ) ≠ 0 ∧
    ((PacerState.mk true 0 0).cooldown = true →
      resolveRate (PacerState.mk true 0 0) 2
        = ({ PacerState.mk true 0 0 with cooldown := false }, RequestsPerSecondCoolDown)) ∧
    ((PacerState.mk true 0 0).cooldown = false →
      resolveRate (PacerState.mk true 0 0) 2 = (PacerState.mk true 0 0, 2)) ∧
    ((PacerState.mk true 0 0).cooldown = false →
      resolveRate (PacerState.mk true 0 0) 0
        = (PacerState.mk true 0 0, RequestsPerSecondNormal)) ∧
    beforeRequest (PacerState.mk true 0 0) 5 2
      = ((resolveRate (PacerState.mk true 0 0) 2).1,
          sleepFor (5 - (PacerState.mk true 0 0).lastRequest)
            (resolveRate (PacerState.mk true 0 0) 2).2) ∧
    (resolveRate (onRateLimitError (PacerState.mk true 0 0)) 2).2
      = RequestsPerSecondCoolDown ∧
    (resolveRate (onRateLimitError (PacerState.mk true 0 0)) 2).1.cooldown = false ∧
    (resolveRate ((resolveRate (onRateLimitError (PacerState.mk true 0 0)) 2).1) 3).2
      = (if (3 : ℚ) = 0 then RequestsPerSecondNormal else 3) :=
  ⟨by decide, c1_rate_resolution (PacerState.mk true 0 0) 5 2 3 (by decide)⟩

/-- C5: with effective rate `R`, a `BeforeRequest` call whose elapsed time
since the last recorded request is below `1/R` blocks for exactly the
deficit `1/R - elapsed`, and does not block when `elapsed ≥ 1/R`; hence two
calls with `AfterRequest` recorded between them at `t₁` make the second
call (at `t₂`) block for `max 0 (1/R - (t₂ - t₁))`.  The same deficit
formula governs the early v1 pacer at its fixed 10 req/s rate. -/
theorem c5_pacing_deficit (st : PacerState) (t₁ t₂ rps : ℚ) (hrps : 0 < rps) :
    0 < (resolveRate (afterRequest st t₁) rps).2 ∧
    (t₂ - t₁ < 1 / (resolveRate (afterRequest st t₁) rps).2 →
      (beforeRequest (afterRequest st t₁) t₂ rps).2
        = 1 / (resolveRate (afterRequest st t₁) rps).2 - (t₂ - t₁)) ∧
    (1 / (resolveRate (afterRequest st t₁) rps).2 ≤ t₂ - t₁ →
      (beforeRequest (afterRequest st t₁) t₂ rps).2 = 0) ∧
    (beforeRequest (afterRequest st t₁) t₂ rps).2
      = max 0 (1 / (resolveRate (afterRequest st t₁) rps).2 - (t₂ - t₁)) ∧
    beforeRequestV1Simple t₁ t₂ = max 0 (1 / 10 - (t₂ - t₁)) := by
  have hR : 0 < (resolveRate (afterRequest st t₁) rps).2 := by
    unfold resolveRate
    split
    · norm_num [RequestsPerSecondCoolDown]
    · split
      · norm_num [RequestsPerSecondNormal]
      · exact hrps
  have hsleep : ∀ elapsed R : ℚ, 0 < R →
      sleepFor elapsed R = max 0 (1 / R - elapsed) := by
    intro elapsed R hR0
    unfold sleepFor
    rcases lt_or_le elapsed (1 / R) with hlt | hle
    · rw [if_pos hlt, max_eq_right (by linarith)]
    · rw [if_neg (not_lt.mpr hle), max_eq_left (by linarith)]
  have hel : (afterRequest st t₁).lastRequest = t₁ := rfl
  refine ⟨hR, ?_, ?_, ?_, ?_⟩
  · intro hlt
    show sleepFor (t₂ - (afterRequest st t₁).lastRequest) _ = _
    rw [hel, hsleep _ _ hR, max_eq_right (by linarith)]
  · intro hle
    show sleepFor (t₂ - (afterRequest st t₁).lastRequest) _ = _
    rw [hel, hsleep _ _ hR, max_eq_left (by linarith)]
  · show sleepFor (t₂ - (afterRequest st t₁).lastRequest) _ = _
    rw [hel, hsleep _ _ hR]
  · exact hsleep (t₂ - t₁) 10 (by norm_num)

theorem c5_pacing_deficit_witness :
    (0 : ℚ) < 4 ∧
    (0 < (resolveRate (afterRequest (PacerState.mk false 0 0) 1) 4).2 ∧
    ((3 : ℚ) - 1 < 1 / (resolveRate (afterRequest (PacerState.mk false 0 0) 1) 4).2 →
      (beforeRequest (afterRequest (PacerState.mk false 0 0) 1) 3 4).2
        = 1 / (resolveRate (afterRequest (PacerState.mk false 0 0) 1) 4).2 - (3 - 1)) ∧
    (1 / (resolveRate (afterRequest (PacerState.mk false 0 0) 1) 4).2 ≤ (3 : ℚ) - 1 →
      (beforeRequest (afterRequest (PacerState.mk false 0 0) 1) 3 4).2 = 0) ∧
    (beforeRequest (afterRequest (PacerState.mk false 0 0) 1) 3 4).2
      = max 0 (1 / (resolveRate (afterRequest (PacerState.mk false 0 0) 1) 4).2 - (3 - 1)) ∧
    beforeRequestV1Simple 1 3 = max 0 (1 / 10 - ((3 : ℚ) - 1))) :=
  ⟨by norm_num, c5_pacing_deficit (PacerState.mk false 0 0) 1 3 4 (by norm_num)⟩

/-! ### Signers

Two signature algorithms occur in the repository.

The form-encoded variant (client.go `post` lines 291-308, unnamed/part_001
`post` lines 143-160): collect the keys of the `url.Values` map, sort them,
concatenate `key ++ value` for every key whose value is non-empty, append
the secret and hash the result with SHA-256 (hex output).

The JSON-body variant (unnamed/part_000 `post` lines 226-263): concatenate
method, the literal id `"0"`, the api key, then `key ++ stringified value`
for every sorted key whose value is not `nil`, then the nonce, and HMAC
SHA-256 the result under the secret (hex output).

Parameter maps are modelled as association lists whose list order stands
for the in-memory iteration order of the Go map; lookups return the first
binding.  The hash functions themselves live in the Go standard library
and are taken as opaque-free parameters: every theorem about the signers
holds for an arbitrary hash, the signers only build the hashed string. -/

/-- Byte-wise lexicographic string comparison, the order used by Go's
`sort.Strings` (the repository's parameter keys are ASCII, where byte
order and code-point order coincide). -/
def charListLe : List Char → List Char → Bool
  | [], _ => true
  | _ :: _, [] => false
  | a :: as, b :: bs => if a = b then charListLe as bs else decide (a < b)

def keyLe (a b : String) : Prop := charListLe a.data b.data = true

instance (a b : String) : Decidable (keyLe a b) :=
  inferInstanceAs (Decidable (charListLe a.data b.data = true))

theorem charListLe_total : ∀ as bs : List Char,
    charListLe as bs = true ∨ charListLe bs as = true := by
  intro as
  induction as with
  | nil => exact fun _ => Or.inl rfl
  | cons a as ih =>
    intro bs
    cases bs with
    | nil => exact Or.inr rfl
    | cons b bs =>
      simp only [charListLe]
      by_cases hab : a = b
      · subst hab
        simpa using ih bs
      · have hba : b ≠ a := Ne.symm hab
        simp only [hab, hba, if_false, decide_eq_true_eq]
        exact lt_or_gt_of_ne hab

theorem charListLe_trans : ∀ as bs cs : List Char,
    charListLe as bs = true → charListLe bs cs = true → charListLe as cs = true := by
  intro as
  induction as with
  | nil => exact fun _ _ _ _ => rfl
  | cons a as ih =>
    intro bs cs h₁ h₂
    cases bs with
    | nil => simp [charListLe] at h₁
    | cons b bs =>
      cases cs with
      | nil => simp [charListLe] at h₂
      | cons c cs =>
        simp only [charListLe] at h₁ h₂ ⊢
        by_cases hab : a = b
        · subst hab
          by_cases hac : a = c
          · subst hac
            simp only [if_pos rfl] at h₁ h₂ ⊢
            exact ih bs cs h₁ h₂
          · simp only [if_pos rfl] at h₁
            simp only [hac, if_neg hac] at h₂ ⊢
            exact h₂
        · by_cases hbc : b = c
          · subst hbc
            simp only [hab, if_neg hab] at h₁ ⊢
            exact h₁
          · simp only [if_neg hab, if_neg hbc, decide_eq_true_eq] at h₁ h₂
            have hac : a < c := lt_trans h₁ h₂
            simp only [if_neg (ne_of_lt hac), decide_eq_true_eq]
            exact hac

theorem charListLe_antisymm : ∀ as bs : List Char,
    charListLe as bs = true → charListLe bs as = true → as = bs := by
  intro as
  induction as with
  | nil =>
    intro bs _ h₂
    cases bs with
    | nil => rfl
    | cons b bs => simp [charListLe] at h₂
  | cons a as ih =>
    intro bs h₁ h₂
    cases bs with
    | nil => simp [charListLe] at h₁
    | cons b bs =>
      simp only [charListLe] at h₁ h₂
      by_cases hab : a = b
      · subst hab
        simp only [if_pos rfl] at h₁ h₂
        rw [ih bs h₁ h₂]
      · have hba : b ≠ a := Ne.symm hab
        simp only [if_neg hab, if_neg hba, decide_eq_true_eq] at h₁ h₂
        exact absurd h₂ (not_lt.mpr (le_of_lt h₁))

instance : IsTotal String keyLe :=
  ⟨fun a b => charListLe_total a.data b.data⟩

instance : IsTrans String keyLe :=
  ⟨fun a b c => charListLe_trans a.data b.data c.data⟩

instance : IsAntisymm String keyLe :=
  ⟨fun a b h₁ h₂ => String.toList_inj.mp (charListLe_antisymm a.data b.data h₁ h₂)⟩

/-- Keys of a parameter map, sorted lexicographically
(`sort.Strings(keys)`). -/
def sortedKeys {α : Type} (params : List (String × α)) : List String :=
  List.insertionSort keyLe (params.map Prod.fst)

/-- Map lookup: the first value bound to `key`, or the zero value `dflt`
when absent (`url.Values.Get` returns `""`, a Go `map` read returns
`nil`). -/
def getValue {α : Type} (dflt : α) : List (String × α) → String → α
  | [], _ => dflt
  | p :: rest, key => if p.1 = key then p.2 else getValue dflt rest key

/-- Go `url.Values.Set`: replace the binding for `key`, or append a new
one. -/
def setValue {α : Type} : List (String × α) → String → α → List (String × α)
  | [], key, v => [(key, v)]
  | p :: rest, key, v => if p.1 = key then (key, v) :: rest else p :: setValue rest key v

/-- The string accumulated in `buf` by the form-encoded signature block
(client.go lines 296-304): for every sorted key, `key ++ value` unless the
value is the empty string, which is skipped entirely. -/
def signBase (params : List (String × String)) : String :=
  String.join ((sortedKeys params).map fun key =>
    let value := getValue "" params key
    if value = "" then "" else key ++ value)

/-- The form-encoded signature (client.go lines 305-308): the hex SHA-256
digest of `buf ++ secret`, with the digest function abstracted as
`hash`. -/
def signV1 (hash : String → String) (params : List (String × String)) (secret : String) :
    String :=
  hash (signBase params ++ secret)

/-- Scalar JSON parameter values as they occur in the repository's calls to
the JSON-body `post`: strings, integers, and the absent value `nil`. -/
inductive JValue where
  | str (s : String)
  | int (i : Int)
  | null
deriving DecidableEq

/-- Stringification of a parameter value inside the signature block of
unnamed/part_000 (lines 240-251): `strconv` formatting for numbers, `%v`
for strings.  `null` is never stringified because `nil` values are skipped
before this function is reached. -/
def jvalString : JValue → String
  | .str s => s
  | .int i => toString i
  | .null => ""

/-- The string accumulated in `sig` by the JSON-body signature block
(unnamed/part_000 lines 227-254): method, id `"0"`, api key, then
`key ++ stringified value` for every sorted key whose value is not `nil`,
then the nonce. -/
def sigPayload (method apiKey : String) (params : List (String × JValue)) (nonce : Int) :
    String :=
  method ++ "0" ++ apiKey ++
    String.join ((sortedKeys params).map fun key =>
      match getValue JValue.null params key with
      | JValue.null => ""
      | v => key ++ jvalString v) ++
    toString nonce

/-- The JSON-body signature (unnamed/part_000 lines 255-263): the hex
HMAC-SHA-256 of the payload under the secret, with the keyed digest
abstracted as `hmacHex`. -/
def signV2 (hmacHex : String → String → String) (secret method apiKey : String)
    (params : List (String × JValue)) (nonce : Int) : String :=
  hmacHex secret (sigPayload method apiKey params nonce)

theorem getValue_eq_of_perm {α : Type} (dflt : α) {l₁ l₂ : List (String × α)}
    (h : l₁.Perm l₂) :
    (l₁.map Prod.fst).Nodup → ∀ key, getValue dflt l₁ key = getValue dflt l₂ key := by
  induction h with
  | nil => exact fun _ _ => rfl
  | cons a h ih =>
    intro nd key
    simp only [List.map_cons, List.nodup_cons] at nd
    simp only [getValue]
    split
    · rfl
    · exact ih nd.2 key
  | swap x y l =>
    intro nd key
    have hyx : y.1 ≠ x.1 := by
      simp only [List.map_cons, List.nodup_cons, List.mem_cons] at nd
      exact fun e => nd.1 (Or.inl e)
    simp only [getValue]
    by_cases hy : y.1 = key <;> by_cases hx : x.1 = key
    · exact absurd (hy.trans hx.symm) hyx
    · simp [hy, hx]
    · simp [hy, hx]
    · simp [hy, hx]
  | trans h₁ h₂ ih₁ ih₂ =>
    intro nd key
    exact (ih₁ nd key).trans (ih₂ (((h₁.map Prod.fst).nodup_iff).mp nd) key)

theorem sortedKeys_eq_of_perm {α : Type} {l₁ l₂ : List (String × α)} (h : l₁.Perm l₂) :
    sortedKeys l₁ = sortedKeys l₂ := by
  have hs₁ : List.Sorted keyLe (sortedKeys l₁) := List.sorted_insertionSort keyLe _
  have hs₂ : List.Sorted keyLe (sortedKeys l₂) := List.sorted_insertionSort keyLe _
  exact List.eq_of_perm_of_sorted
    ((List.perm_insertionSort keyLe _).trans
      ((h.map Prod.fst).trans (List.perm_insertionSort keyLe _).symm)) hs₁ hs₂

theorem signBase_eq_of_perm {l₁ l₂ : List (String × String)}
    (h : l₁.Perm l₂) (nd : (l₁.map Prod.fst).Nodup) : signBase l₁ = signBase l₂ := by
  unfold signBase
  rw [sortedKeys_eq_of_perm h]
  congr 1
  apply List.map_congr_left
  intro key _
  rw [getValue_eq_of_perm "" h nd key]

theorem sigPayload_eq_of_perm (method apiKey : String) {m₁ m₂ : List (String × JValue)}
    (nonce : Int) (h : m₁.Perm m₂) (nd : (m₁.map Prod.fst).Nodup) :
    sigPayload method apiKey m₁ nonce = sigPayload method apiKey m₂ nonce := by
  unfold sigPayload
  rw [sortedKeys_eq_of_perm h]
  congr 3
  apply List.map_congr_left
  intro key _
  rw [getValue_eq_of_perm JValue.null h nd key]

/-- C4: both signers are pure functions of (path/method, parameters, api
key, secret, nonce): with the nonce fixed, identical logical inputs give
the identical signature string, independent of the in-memory iteration
order of the parameter map — any two enumeration orders of the same map
(permutations with distinct keys) produce equal signatures, for every
digest function. -/
theorem c4_signer_pure_order_independent
    (hash : String → String) (hmacHex : String → String → String)
    (secret method apiKey : String) (nonce : Int)
    (l₁ l₂ : List (String × String)) (m₁ m₂ : List (String × JValue))
    (hl : l₁.Perm l₂) (hlnd : (l₁.map Prod.fst).Nodup)
    (hm : m₁.Perm m₂) (hmnd : (m₁.map Prod.fst).Nodup) :
    signV1 hash l₁ secret = signV1 hash l₂ secret ∧
    signV2 hmacHex secret method apiKey m₁ nonce
      = signV2 hmacHex secret method apiKey m₂ nonce := by
  constructor
  · unfold signV1
    rw [signBase_eq_of_perm hl hlnd]
  · unfold signV2
    rw [sigPayload_eq_of_perm method apiKey nonce hm hmnd]

theorem c4_signer_pure_order_independent_witness :
    ([("b", "5"), ("a", "1")].Perm [("a", "1"), ("b", "5")] ∧
      ([("b", "5"), ("a", "1")].map Prod.fst).Nodup ∧
      [("q", JValue.int 2), ("p", JValue.str "x")].Perm
        [("p", JValue.str "x"), ("q", JValue.int 2)] ∧
      (([("q", JValue.int 2), ("p", JValue.str "x")]).map Prod.fst).Nodup) ∧
    (signV1 (fun s => s) [("b", "5"), ("a", "1")] "sec"
        = signV1 (fun s => s) [("a", "1"), ("b", "5")] "sec" ∧
      signV2 (fun _ s => s) "sec" "m" "k" [("q", JValue.int 2), ("p", JValue.str "x")] 7
        = signV2 (fun _ s => s) "sec" "m" "k"
            [("p", JValue.str "x"), ("q", JValue.int 2)] 7) :=
  ⟨⟨by decide, by decide, by decide, by decide⟩,
    c4_signer_pure_order_independent (fun s => s) (fun _ s => s) "sec" "m" "k" 7
      [("b", "5"), ("a", "1")] [("a", "1"), ("b", "5")]
      [("q", JValue.int 2), ("p", JValue.str "x")]
      [("p", JValue.str "x"), ("q", JValue.int 2)]
      (by decide) (by decide) (by decide) (by decide)⟩

/-- C3 counterexample: in the JSON-body signer variant
(unnamed/part_000), only `nil` values are skipped; a parameter bound to
the empty string contributes its key to the signed canonical string, so
the canonical strings for the parameter sets a ↦ "", b ↦ "5" and b ↦ "5"
differ — the claim that empty values contribute nothing to the signed
string in every signer variant fails. -/
theorem c3_empty_param_counterexample :
    sigPayload "m" "k" [("a", JValue.str ""), ("b", JValue.str "5")] 7
      ≠ sigPayload "m" "k" [("b", JValue.str "5")] 7 := by
  decide

/-- C3 amended: in the form-encoded signer variants (client.go `post`,
unnamed/part_001 `post`), parameters with empty-string values are skipped
entirely, so signing a ↦ "", b ↦ "5" gives exactly the signature of
b ↦ "5" for every key, secret and digest; in the JSON-body variant
(unnamed/part_000) only `nil`/absent parameters are skipped, so the same
equality holds there when `a` is `nil`, while an empty-string value
contributes its key (see the counterexample). -/
theorem c3_empty_params_skipped (hash : String → String)
    (hmacHex : String → String → String) (secret method apiKey : String) (nonce : Int) :
    signV1 hash [("a", ""), ("b", "5")] secret = signV1 hash [("b", "5")] secret ∧
    signV2 hmacHex secret method apiKey [("a", JValue.null), ("b", JValue.str "5")] nonce
      = signV2 hmacHex secret method apiKey [("b", JValue.str "5")] nonce := by
  constructor
  · unfold signV1
    rw [show signBase [("a", ""), ("b", "5")] = signBase [("b", "5")] from by decide]
  · unfold signV2 sigPayload
    rw [show String.join ((sortedKeys [("a", JValue.null), ("b", JValue.str "5")]).map
          fun key =>
            match getValue JValue.null [("a", JValue.null), ("b", JValue.str "5")] key with
            | JValue.null => ""
            | v => key ++ jvalString v)
        = String.join ((sortedKeys [("b", JValue.str "5")]).map fun key =>
            match getValue JValue.null [("b", JValue.str "5")] key with
            | JValue.null => ""
            | v => key ++ jvalString v) from by decide]

/-! ### Dispatchers

HTTP responses are modelled as a status code, the status text
(`resp.Status`, e.g. `"429 Too Many Requests"`) and a decoded body; a
transport-level (network) failure is an `Except.error`.  The v1 response
family decodes into an optional `msg` field and a `data` payload
(`Response1` in client.go); the v2 family into an optional numeric `code`,
optional `details` and `message` fields and a `result` payload
(`Response2`/`Response` in client.go and unnamed/part_000).  `invalid`
stands for a body that `json.Unmarshal` rejects.  Query strings are
carried already encoded (`params.Encode()` is external `net/url` code). -/

structure HttpResp (β : Type) where
  statusCode : ℕ
  statusText : String
  body : β

inductive BodyV1 where
  | invalid
  | valid (msg : Option String) (data : String)

inductive BodyV2 where
  | invalid
  | valid (code : Option ℤ) (details message : Option String) (result : String)

/-- Stand-in for the error text produced by `json.Unmarshal` on an
undecodable body; its exact content is irrelevant to every claim. -/
def jsonErr : String := "invalid character"

structure DispatchOut where
  result : Except String String
  state : PacerState

/-- The error raised by the v1 status-map inspection (client.go lines
152-159): when the body decodes and carries a `msg` field different from
`"suc"`, that message alone becomes the error. -/
def msgCheckV1 : BodyV1 → Option String
  | .valid (some m) _ => if m = "suc" then none else some m
  | _ => none

/-- Error text for a non-200 status in `get_v1` (client.go lines 161-169):
`"GET <status> <path>"`, with `?<query>` appended when params are
present. -/
def httpErrV1Get (statusText path : String) (query : Option String) : String :=
  match query with
  | none => "GET " ++ statusText ++ " " ++ path
  | some q => "GET " ++ statusText ++ " " ++ path ++ "?" ++ q

/-- Result interpretation of `Client.get_v1` (client.go lines 151-176):
the `msg` check, then the 200-status check, then decoding `Response1`. -/
def getV1Result (path : String) (query : Option String) (resp : HttpResp BodyV1) :
    Except String String :=
  match msgCheckV1 resp.body with
  | some m => .error m
  | none =>
    if resp.statusCode ≠ 200 then .error (httpErrV1Get resp.statusText path query)
    else
      match resp.body with
      | .invalid => .error jsonErr
      | .valid _ data => .ok data

/-- `Client.get_v1` (client.go lines 109-177): pace, perform a single
transport call (there is no retry loop in this dispatcher), invoke the
rate-limit hook on a 429 status, interpret the response.  `AfterRequest`
is deferred, so it runs on every exit path after the pacing step. -/
def get_v1 (path : String) (query : Option String) (st : PacerState) (now : ℚ)
    (transport : Except String (HttpResp BodyV1)) : DispatchOut :=
  let st := (beforeRequest st now RequestsPerSecondNormal).1
  match transport with
  | .error e => { result := .error e, state := afterRequest st now }
  | .ok resp =>
    let st := if resp.statusCode = 429 then onRateLimitError st else st
    { result := getV1Result path query resp, state := afterRequest st now }

/-- Message selection for the v2 error envelope (unnamed/part_000 lines
147-155 and client.go lines 226-234): `details`, else `message`, else the
numeric code itself. -/
def v2msg (code : ℤ) (details message : Option String) : String :=
  match details with
  | some det => det
  | none =>
    match message with
    | some m => m
    | none => toString code

/-- Application-error text of the part_000 `get` (lines 156-162):
`"GET <path>?<query> <msg>"`, the query part omitted when params
are nil. -/
def appErrV2Get (path : String) (query : Option String) (msg : String) : String :=
  match query with
  | none => "GET " ++ path ++ " " ++ msg
  | some q => "GET " ++ path ++ "?" ++ q ++ " " ++ msg

/-- Result interpretation of one attempt of the part_000 `get` (lines
142-182): envelope code check, then the 2xx-status check, then decoding
`Response`. -/
def getV2Result (path : String) (query : Option String) (resp : HttpResp BodyV2) :
    Except String String :=
  match resp.body with
  | .valid (some c) det msg _ =>
    if c ≠ 0 then .error (appErrV2Get path query (v2msg c det msg))
    else
      if resp.statusCode < 200 ∨ 300 ≤ resp.statusCode then
        .error (appErrV2Get path query resp.statusText)
      else
        match resp.body with
        | .invalid => .error jsonErr
        | .valid _ _ _ result => .ok result
  | _ =>
    if resp.statusCode < 200 ∨ 300 ≤ resp.statusCode then
      .error (appErrV2Get path query resp.statusText)
    else
      match resp.body with
      | .invalid => .error jsonErr
      | .valid _ _ _ result => .ok result

structure AttemptOut where
  statusCode : ℕ
  result : Except String String
  state : PacerState

/-- One iteration of the retry loop of the part_000 `get` (lines 114-183):
pace, transport call, rate-limit hook on 429, interpret; `AfterRequest`
is deferred per attempt.  A transport failure reports status code 0. -/
def getV2Attempt (path : String) (query : Option String) (st : PacerState) (now : ℚ)
    (transport : Except String (HttpResp BodyV2)) : AttemptOut :=
  let st := (beforeRequest st now RequestsPerSecondNormal).1
  match transport with
  | .error e => { statusCode := 0, result := .error e, state := afterRequest st now }
  | .ok resp =>
    let st := if resp.statusCode = 429 then onRateLimitError st else st
    { statusCode := resp.statusCode, result := getV2Result path query resp,
      state := afterRequest st now }

/-- The retry loop of the part_000 `get` (lines 112-188): repeat attempts
while the transport status is 429; each attempt consumes the next stub
transport response (paired with the attempt's clock reading).  An
exhausted stub list marks the unreachable end of a finite scenario. -/
def getV2 (path : String) (query : Option String) :
    List (ℚ × Except String (HttpResp BodyV2)) → PacerState →
      Except String String × PacerState
  | [], st => (.error "transport: no response", st)
  | (now, tr) :: rest, st =>
    let o := getV2Attempt path query st now tr
    if o.statusCode = 429 then getV2 path query rest o.state
    else (o.result, o.state)

/-- Instrumentation of one POST attempt: the exact string handed to the
SHA-256 hash (`buf.String()` with the secret appended, client.go lines
297-307) and the form fields transmitted (the per-attempt copy of the
caller's map after `api_key`, `time` and `sign` have been set). -/
structure PostLog where
  hashed : String
  body : List (String × String)

structure PostOut where
  statusCode : ℕ
  result : Except String String
  state : PacerState
  log : PostLog

/-- `url.Values.Encode` (sorted keys, used only inside error strings;
percent-escaping is external `net/url` behaviour and is omitted). -/
def encodeForm (params : List (String × String)) : String :=
  String.intercalate "&" ((sortedKeys params).map fun k => k ++ "=" ++ getValue "" params k)

/-- Error text for a non-200 status in `Client.post` (client.go lines
347-355). -/
def httpErrPost (path statusText : String) (params : List (String × String)) : String :=
  if params = [] then "POST " ++ statusText ++ " " ++ path
  else "POST " ++ statusText ++ " " ++ path ++ "?" ++ encodeForm params

/-- One iteration of the retry loop of `Client.post` (client.go lines
277-370): the attempt closure receives a fresh copy of the caller's
parameter map (lines 364-370), paces, sets `api_key` and `time`, hashes
the sorted concatenation plus secret, sets `sign` only after the hash is
computed, transmits, invokes the rate-limit hook on 429 and interprets
the v1 envelope.  `AfterRequest` is deferred per attempt. -/
def postAttempt (key secret path : String) (rps : ℚ) (hash : String → String)
    (callerParams : List (String × String)) (st : PacerState) (now : ℚ) (nonce : ℤ)
    (transport : Except String (HttpResp BodyV1)) : PostOut :=
  let params := callerParams
  let st := (beforeRequest st now rps).1
  let params := setValue params "api_key" key
  let params := setValue params "time" (toString nonce)
  let hashed := signBase params ++ secret
  let params := setValue params "sign" (hash hashed)
  let log : PostLog := { hashed := hashed, body := params }
  match transport with
  | .error e => { statusCode := 0, result := .error e, state := afterRequest st now, log := log }
  | .ok resp =>
    let st := if resp.statusCode = 429 then onRateLimitError st else st
    let result : Except String String :=
      match msgCheckV1 resp.body with
      | some m => .error m
      | none =>
        if resp.statusCode ≠ 200 then .error (httpErrPost path resp.statusText params)
        else
          match resp.body with
          | .invalid => .error jsonErr
          | .valid _ data => .ok data
    { statusCode := resp.statusCode, result := result, state := afterRequest st now, log := log }

/-- The retry loop of `Client.post` (client.go lines 276-375): repeat
attempts while the transport status is 429; every attempt restarts from
the caller's original parameter map and a fresh nonce.  The attempt logs
are collected for the statements. -/
def postLoop (key secret path : String) (rps : ℚ) (hash : String → String)
    (callerParams : List (String × String)) :
    List (ℚ × ℤ × Except String (HttpResp BodyV1)) → PacerState →
      Except String String × PacerState × List PostLog
  | [], st => (.error "transport: no response", st, [])
  | (now, nonce, tr) :: rest, st =>
    let o := postAttempt key secret path rps hash callerParams st now nonce tr
    if o.statusCode = 429 then
      let r := postLoop key secret path rps hash callerParams rest o.state
      (r.1, r.2.1, o.log :: r.2.2)
    else (o.result, o.state, [o.log])

theorem beforeRequest_state (st : PacerState) (now rps : ℚ) :
    (beforeRequest st now rps).1 = { st with cooldown := false } := by
  rw [beforeRequest, resolveRate_fst]

/-- Substring test (list of characters, contiguous), used to state that an
error text does or does not contain a path. -/
def startsWithChars : List Char → List Char → Bool
  | [], _ => true
  | _ :: _, [] => false
  | a :: as, b :: bs => a = b && startsWithChars as bs

def subListChars : List Char → List Char → Bool
  | n, [] => decide (n = [])
  | n, c :: rest => startsWithChars n (c :: rest) || subListChars n rest

def strContains (needle hay : String) : Bool :=
  subListChars needle.data hay.data

/-- C6: `AfterRequest` (which records the attempt's clock reading as the
last-request timestamp) runs after every transmission attempt on every
outcome — transport error, rate-limit rejection, application error,
decode error or success — in `get_v1`, in the part_000 `get` attempt and
in the `post` attempt, because it is deferred right after the pacing
step; so failed attempts still count against the pacing budget. -/
theorem c6_afterRequest_unconditional (path : String) (query : Option String)
    (st : PacerState) (now rps : ℚ) (key secret : String) (hash : String → String)
    (callerParams : List (String × String)) (nonce : ℤ)
    (tr1 tr3 : Except String (HttpResp BodyV1)) (tr2 : Except String (HttpResp BodyV2)) :
    (get_v1 path query st now tr1).state.lastRequest = now ∧
    (getV2Attempt path query st now tr2).state.lastRequest = now ∧
    (postAttempt key secret path rps hash callerParams st now nonce tr3).state.lastRequest
      = now := by
  refine ⟨?_, ?_, ?_⟩
  · cases tr1 <;> rfl
  · cases tr2 <;> rfl
  · cases tr3 <;> rfl

/-- C2 counterexample: the claim asserts that every client variant
retries a 429 from the top until a non-429 arrives; but `Client.get_v1`
(client.go lines 109-177) contains no loop — handed a transport whose
next responses are 429-then-success, it consumes only the 429 response,
invokes the hook once, and surfaces an error instead of retrying and
returning the payload. -/
theorem c2_429_counterexample :
    (get_v1 "/v1/ticker" none (PacerState.mk false 0 0) 1
        (.ok (HttpResp.mk 429 "429 Too Many Requests" BodyV1.invalid))).result
      = .error "GET 429 Too Many Requests /v1/ticker" ∧
    (get_v1 "/v1/ticker" none (PacerState.mk false 0 0) 1
        (.ok (HttpResp.mk 429 "429 Too Many Requests" BodyV1.invalid))).state.rateLimitCount
      = 1 :=
  ⟨rfl, rfl⟩

/-- C2 amended: the loop dispatchers — the part_000 `get`/`post` and the
client.go `post` — invoke the rate-limit hook on each 429 and retry from
the top until a non-429 status arrives: a transport answering 429 `n`
times and then 200 with a success envelope yields the payload with no
error and the hook invoked exactly `n` times (once for a single 429).
`Client.get_v1` and `get_v2` instead invoke the hook on a 429 but return
an error without retrying (and the part_001 dispatchers ignore 429
altogether). -/
theorem c2_retry_loop_amended (path : String) (query : Option String) (st : PacerState)
    (n : ℕ) (t₁ t₂ : ℚ) (txt txtOk : String) (b : BodyV2)
    (det msg : Option String) (payload : String)
    (key secret : String) (rps : ℚ) (hash : String → String)
    (P : List (String × String)) (n₁ n₂ : ℤ) (txt1 txtOk1 : String) (b1 : BodyV1)
    (payload1 : String) :
    getV2 path query
        (List.replicate n (t₁, .ok (HttpResp.mk 429 txt b)) ++
          [(t₂, .ok (HttpResp.mk 200 txtOk (BodyV2.valid (some 0) det msg payload)))]) st
      = (.ok payload, PacerState.mk false t₂ (st.rateLimitCount + n)) ∧
    (postLoop key secret path rps hash P
        [(t₁, n₁, .ok (HttpResp.mk 429 txt1 b1)),
          (t₂, n₂, .ok (HttpResp.mk 200 txtOk1 (BodyV1.valid (some "suc") payload1)))] st).1
      = .ok payload1 ∧
    (postLoop key secret path rps hash P
        [(t₁, n₁, .ok (HttpResp.mk 429 txt1 b1)),
          (t₂, n₂, .ok (HttpResp.mk 200 txtOk1 (BodyV1.valid (some "suc") payload1)))]
        st).2.1.rateLimitCount
      = st.rateLimitCount + 1 ∧
    (get_v1 path query st t₁ (.ok (HttpResp.mk 429 txt BodyV1.invalid))).result
      = .error (httpErrV1Get txt path query) ∧
    (get_v1 path query st t₁
        (.ok (HttpResp.mk 429 txt BodyV1.invalid))).state.rateLimitCount
      = st.rateLimitCount + 1 := by
  refine ⟨?_, ?_, ?_, ?_, ?_⟩
  · induction n generalizing st with
    | zero =>
      simp [getV2, getV2Attempt, getV2Result, beforeRequest_state, afterRequest]
    | succ m ih =>
      rw [List.replicate_succ, List.cons_append]
      show getV2 path query _ st = _
      rw [show getV2 path query
          ((t₁, .ok (HttpResp.mk 429 txt b)) ::
            (List.replicate m (t₁, .ok (HttpResp.mk 429 txt b)) ++
              [(t₂, .ok (HttpResp.mk 200 txtOk (BodyV2.valid (some 0) det msg payload)))])) st
          = getV2 path query
              (List.replicate m (t₁, .ok (HttpResp.mk 429 txt b)) ++
                [(t₂, .ok (HttpResp.mk 200 txtOk (BodyV2.valid (some 0) det msg payload)))])
              (getV2Attempt path query st t₁ (.ok (HttpResp.mk 429 txt b))).state from by
        simp [getV2, getV2Attempt]]
      rw [ih]
      have hstate : (getV2Attempt path query st t₁ (.ok (HttpResp.mk 429 txt b))).state
          = PacerState.mk true t₁ (st.rateLimitCount + 1) := by
        simp [getV2Attempt, beforeRequest_state, afterRequest, onRateLimitError]
      rw [hstate]
      simp [Nat.add_assoc, Nat.add_comm 1 m]
  · simp [postLoop, postAttempt, msgCheckV1, beforeRequest_state, afterRequest,
      onRateLimitError]
  · simp [postLoop, postAttempt, msgCheckV1, beforeRequest_state, afterRequest,
      onRateLimitError]
  · simp [get_v1, getV1Result, msgCheckV1, httpErrV1Get, beforeRequest_state, afterRequest,
      onRateLimitError]
  · simp [get_v1, beforeRequest_state, afterRequest, onRateLimitError]

/-- C7 counterexample: the claim asserts that an HTTP-200 response with a
failing envelope yields an error containing the message together with the
method and the original path; but `Client.get_v1` (client.go lines
152-159) surfaces the bare `msg` value alone — the resulting error text
does not contain the request path. -/
theorem c7_app_error_counterexample :
    (get_v1 "/v1/order" (some "symbol=ethbtc") (PacerState.mk false 0 0) 1
        (.ok (HttpResp.mk 200 "200 OK" (BodyV1.valid (some "INVALID_PARAM") "D")))).result
      = .error "INVALID_PARAM" ∧
    strContains "/v1/order" "INVALID_PARAM" = false :=
  ⟨rfl, rfl⟩

/-- C7 amended: in the v2-family dispatchers (part_000 `get`, and
likewise client.go `get_v2`), an HTTP-200 response whose envelope carries
a non-zero code yields an error combining the method, the path, the query
string and the selected failure message; in the v1-family (`msg`-token)
dispatchers such as `get_v1`, the error is the bare failure message
without method or path. -/
theorem c7_app_error_format (path q txt payload data m : String)
    (c : ℤ) (det msgf : Option String) (st : PacerState) (now : ℚ)
    (hc : c ≠ 0) (hm : m ≠ "suc") :
    (getV2Attempt path (some q) st now
        (.ok (HttpResp.mk 200 txt (BodyV2.valid (some c) det msgf payload)))).result
      = .error ("GET " ++ path ++ "?" ++ q ++ " " ++ v2msg c det msgf) ∧
    (get_v1 path (some q) st now
        (.ok (HttpResp.mk 200 txt (BodyV1.valid (some m) data)))).result
      = .error m := by
  constructor
  · simp [getV2Attempt, getV2Result, appErrV2Get, hc]
  · simp [get_v1, getV1Result, msgCheckV1, hm]

theorem c7_app_error_format_witness :
    ((10001 : ℤ) ≠ 0 ∧ "INVALID_PARAM" ≠ "suc") ∧
    ((getV2Attempt "/v1/order" (some "symbol=ethbtc") (PacerState.mk false 0 0) 1
        (.ok (HttpResp.mk 200 "200 OK"
          (BodyV2.valid (some 10001) none (some "INVALID_PARAM") "P")))).result
      = .error ("GET " ++ "/v1/order" ++ "?" ++ "symbol=ethbtc" ++ " "
          ++ v2msg 10001 none (some "INVALID_PARAM")) ∧
    (get_v1 "/v1/order" (some "symbol=ethbtc") (PacerState.mk false 0 0) 1
        (.ok (HttpResp.mk 200 "200 OK"
          (BodyV1.valid (some "INVALID_PARAM") "D")))).result
      = .error "INVALID_PARAM") :=
  ⟨⟨by decide, by decide⟩,
    c7_app_error_format "/v1/order" "symbol=ethbtc" "200 OK" "P" "D" "INVALID_PARAM"
      10001 none (some "INVALID_PARAM") (PacerState.mk false 0 0) 1
      (by decide) (by decide)⟩

/-- The signed string and transmitted body that every attempt of
`Client.post` must produce when it starts from the caller's original
parameter map: `api_key` and `time` are set on a fresh copy, the hash
covers exactly that map (and the secret), and `sign` is set only
afterwards. -/
def postLogSpec (key secret : String) (hash : String → String)
    (callerParams : List (String × String)) (nonce : ℤ) : PostLog :=
  { hashed := signBase (setValue (setValue callerParams "api_key" key) "time"
      (toString nonce)) ++ secret,
    body := setValue (setValue (setValue callerParams "api_key" key) "time"
      (toString nonce)) "sign"
      (hash (signBase (setValue (setValue callerParams "api_key" key) "time"
        (toString nonce)) ++ secret)) }

theorem postAttempt_log (key secret path : String) (rps : ℚ) (hash : String → String)
    (P : List (String × String)) (st : PacerState) (now : ℚ) (nonce : ℤ)
    (tr : Except String (HttpResp BodyV1)) :
    (postAttempt key secret path rps hash P st now nonce tr).log
      = postLogSpec key secret hash P nonce := by
  cases tr <;> rfl

/-- C9: every attempt of the `Client.post` retry loop signs a per-attempt
copy of the caller's parameter map: attempt `i`'s hashed string and
transmitted body are functions of the caller's original parameters, the
api key, the secret and that attempt's own nonce alone — the `api_key`,
`time` and `sign` fields set during earlier attempts never leak into a
later attempt's canonical string, and since the transmitted body is the
signed map extended with `sign` of the already-computed hash, the
signature never covers itself. -/
theorem c9_post_signs_fresh_copy (key secret path : String) (rps : ℚ)
    (hash : String → String) (P : List (String × String))
    (attempts : List (ℚ × ℤ × Except String (HttpResp BodyV1))) (st : PacerState)
    (i : ℕ) (a : ℚ × ℤ × Except String (HttpResp BodyV1))
    (ha : attempts.get? i = some a)
    (hi : i < (postLoop key secret path rps hash P attempts st).2.2.length) :
    (postLoop key secret path rps hash P attempts st).2.2.get? i
      = some (postLogSpec key secret hash P a.2.1) := by
  induction attempts generalizing st i with
  | nil => simp at ha
  | cons hd rest ih =>
    obtain ⟨now, nonce, tr⟩ := hd
    have hcons : postLoop key secret path rps hash P ((now, nonce, tr) :: rest) st
        = if (postAttempt key secret path rps hash P st now nonce tr).statusCode = 429 then
            ((postLoop key secret path rps hash P rest
                (postAttempt key secret path rps hash P st now nonce tr).state).1,
              (postLoop key secret path rps hash P rest
                (postAttempt key secret path rps hash P st now nonce tr).state).2.1,
              (postAttempt key secret path rps hash P st now nonce tr).log ::
                (postLoop key secret path rps hash P rest
                  (postAttempt key secret path rps hash P st now nonce tr).state).2.2)
          else ((postAttempt key secret path rps hash P st now nonce tr).result,
            (postAttempt key secret path rps hash P st now nonce tr).state,
            [(postAttempt key secret path rps hash P st now nonce tr).log]) := rfl
    rw [hcons] at hi ⊢
    by_cases h429 : (postAttempt key secret path rps hash P st now nonce tr).statusCode = 429
    · rw [if_pos h429] at hi ⊢
      dsimp only at hi ⊢
      cases i with
      | zero =>
        simp only [List.get?] at ha ⊢
        cases ha
        exact congrArg some (postAttempt_log key secret path rps hash P st now nonce tr)
      | succ j =>
        simp only [List.get?] at ha ⊢
        simp only [List.length_cons, Nat.succ_lt_succ_iff] at hi
        exact ih _ j ha hi
    · rw [if_neg h429] at hi ⊢
      dsimp only at hi ⊢
      cases i with
      | zero =>
        simp only [List.get?] at ha ⊢
        cases ha
        exact congrArg some (postAttempt_log key secret path rps hash P st now nonce tr)
      | succ j =>
        simp at hi

theorem c9_post_signs_fresh_copy_witness :
    ([((0 : ℚ), (7 : ℤ),
        (.ok (HttpResp.mk 429 "429 Too Many Requests" BodyV1.invalid)
          : Except String (HttpResp BodyV1))),
      ((1 : ℚ), (8 : ℤ), .ok (HttpResp.mk 200 "200 OK" (BodyV1.valid (some "suc") "D")))].get? 1
      = some ((1 : ℚ), (8 : ℤ),
          .ok (HttpResp.mk 200 "200 OK" (BodyV1.valid (some "suc") "D")))) ∧
    1 < (postLoop "k" "s" "/v1/order" 1 (fun s => s) [("b", "5")]
        [((0 : ℚ), (7 : ℤ), .ok (HttpResp.mk 429 "429 Too Many Requests" BodyV1.invalid)),
          ((1 : ℚ), (8 : ℤ), .ok (HttpResp.mk 200 "200 OK" (BodyV1.valid (some "suc") "D")))]
        (PacerState.mk false 0 0)).2.2.length ∧
    (postLoop "k" "s" "/v1/order" 1 (fun s => s) [("b", "5")]
        [((0 : ℚ), (7 : ℤ), .ok (HttpResp.mk 429 "429 Too Many Requests" BodyV1.invalid)),
          ((1 : ℚ), (8 : ℤ), .ok (HttpResp.mk 200 "200 OK" (BodyV1.valid (some "suc") "D")))]
        (PacerState.mk false 0 0)).2.2.get? 1
      = some (postLogSpec "k" "s" (fun s => s) [("b", "5")] 8) :=
  ⟨rfl, by decide,
    c9_post_signs_fresh_copy "k" "s" "/v1/order" 1 (fun s => s) [("b", "5")]
      [((0 : ℚ), (7 : ℤ), .ok (HttpResp.mk 429 "429 Too Many Requests" BodyV1.invalid)),
        ((1 : ℚ), (8 : ℤ), .ok (HttpResp.mk 200 "200 OK" (BodyV1.valid (some "suc") "D")))]
      (PacerState.mk false 0 0) 1
      ((1 : ℚ), (8 : ℤ), .ok (HttpResp.mk 200 "200 OK" (BodyV1.valid (some "suc") "D")))
      rfl (by decide)⟩

/-! ### Pagination (client.go `OpenOrders` lines 553-594 and `MyTrades`
lines 596-641; unnamed/part_000 lines 531-569)

Both paged endpoints share the same loop: fetch page 0, then, while the
accumulated item count is below the count reported by the first fetch,
increment the page index and fetch again, aborting on any error.  The
page-fetch closure `call` is the collaborator; the visited page indices
are collected as ghost instrumentation.  The loop variable `fuel` bounds
the iteration count of the Go `for` loop (which has no intrinsic bound);
every proven scenario finishes with fuel to spare. -/

def paginateLoop {α : Type} (call : ℕ → Except String (ℕ × List α)) (count : ℕ) :
    ℕ → ℕ → List α → List ℕ → Except String (List α) × List ℕ
  | 0, _, acc, pages => (.ok acc, pages)
  | fuel + 1, page, acc, pages =>
    if acc.length < count then
      match call (page + 1) with
      | .error e => (.error e, pages ++ [page + 1])
      | .ok (_, items) =>
        paginateLoop call count fuel (page + 1) (acc ++ items) (pages ++ [page + 1])
    else (.ok acc, pages)

def paginate {α : Type} (call : ℕ → Except String (ℕ × List α)) (fuel : ℕ) :
    Except String (List α) × List ℕ :=
  match call 0 with
  | .error e => (.error e, [0])
  | .ok (count, items) => paginateLoop call count fuel 0 items [0]

/-- A stubbed paged endpoint serving `items` in pages of `pageSize = 50`
(page `p` holds the items from index `50*p` on, at most 50 of them) and
reporting `total` as the count. -/
def chunkCall {α : Type} (items : List α) (total : ℕ) (page : ℕ) :
    Except String (ℕ × List α) :=
  .ok (total, (items.drop (50 * page)).take 50)

theorem paginateLoop_step {α : Type} (call : ℕ → Except String (ℕ × List α))
    (count fuel page : ℕ) (acc : List α) (pages : List ℕ)
    (hlt : acc.length < count) (total : ℕ) (items : List α)
    (hcall : call (page + 1) = .ok (total, items)) :
    paginateLoop call count (fuel + 1) page acc pages
      = paginateLoop call count fuel (page + 1) (acc ++ items) (pages ++ [page + 1]) := by
  rw [paginateLoop, if_pos hlt, hcall]

theorem paginateLoop_fail {α : Type} (call : ℕ → Except String (ℕ × List α))
    (count fuel page : ℕ) (acc : List α) (pages : List ℕ) (e : String)
    (hlt : acc.length < count) (hcall : call (page + 1) = .error e) :
    paginateLoop call count (fuel + 1) page acc pages = (.error e, pages ++ [page + 1]) := by
  rw [paginateLoop, if_pos hlt, hcall]

theorem paginateLoop_stop {α : Type} (call : ℕ → Except String (ℕ × List α))
    (count fuel page : ℕ) (acc : List α) (pages : List ℕ)
    (hge : ¬ acc.length < count) :
    paginateLoop call count fuel page acc pages = (.ok acc, pages) := by
  cases fuel with
  | zero => rw [paginateLoop]
  | succ f => rw [paginateLoop, if_neg hge]

/-- C8: the pagination loop shared by `OpenOrders` and `MyTrades`
increments the page index and accumulates pages until the accumulated
count reaches the reported total or an error occurs: served a 120-item
collection in pages of 50, it accumulates exactly the 120 items across
exactly 3 fetches with page indices 0, 1, 2; and an error on the first or
on a later page aborts with that error and no items. -/
theorem c8_pagination (α : Type) (items : List α) (e : String) (fuel : ℕ)
    (h : items.length = 120) :
    paginate (chunkCall items 120) (fuel + 3) = (.ok items, [0, 1, 2]) ∧
    paginate (fun _ => (.error e : Except String (ℕ × List α))) fuel = (.error e, [0]) ∧
    paginate (fun p => if p = 0 then chunkCall items 120 0 else .error e) (fuel + 1)
      = (.error e, [0, 1]) := by
  have l1 : (items.take 50).length = 50 := by rw [List.length_take, h]; rfl
  have l3 : ((items.drop 50).take 50).length = 50 := by
    rw [List.length_take, List.length_drop, h]; rfl
  have l4 : (items.drop 100).length = 20 := by rw [List.length_drop, h]
  have htake : (items.drop 100).take 50 = items.drop 100 :=
    List.take_of_length_le (by rw [l4]; decide)
  have hdd : (items.drop 50).drop 50 = items.drop 100 := by
    rw [List.drop_drop]
  have hacc : (items.take 50 ++ (items.drop 50).take 50) ++ items.drop 100 = items := by
    rw [List.append_assoc, ← hdd, List.take_append_drop, List.take_append_drop]
  have hc0 : chunkCall items 120 0 = Except.ok (120, items.take 50) := by
    simp [chunkCall]
  have hc1 : chunkCall items 120 (0 + 1) = Except.ok (120, (items.drop 50).take 50) := by
    simp [chunkCall]
  have hc2 : chunkCall items 120 (1 + 1) = Except.ok (120, items.drop 100) := by
    simp [chunkCall, htake]
  refine ⟨?_, rfl, ?_⟩
  · calc paginate (chunkCall items 120) (fuel + 3)
        = paginateLoop (chunkCall items 120) 120 (fuel + 3) 0 (items.take 50) [0] := by
          unfold paginate
          rw [hc0]
      _ = paginateLoop (chunkCall items 120) 120 (fuel + 2) 1
            (items.take 50 ++ (items.drop 50).take 50) [0, 1] := by
          rw [show fuel + 3 = (fuel + 2) + 1 from by omega,
            paginateLoop_step _ _ _ _ _ _ (by rw [l1]; decide) _ _ hc1]
          rfl
      _ = paginateLoop (chunkCall items 120) 120 (fuel + 1) 2
            ((items.take 50 ++ (items.drop 50).take 50) ++ items.drop 100) [0, 1, 2] := by
          rw [show fuel + 2 = (fuel + 1) + 1 from by omega,
            paginateLoop_step _ _ _ _ _ _
              (by rw [List.length_append, l1, l3]; decide) _ _ hc2]
          rfl
      _ = (.ok items, [0, 1, 2]) := by
          rw [paginateLoop_stop _ _ _ _ _ _
            (by rw [List.length_append, List.length_append, l1, l3, l4]; decide), hacc]
  · have hcz : (fun p => if p = 0 then chunkCall items 120 0 else .error e) 0
        = Except.ok (120, items.take 50) := by
      simp [chunkCall]
    have hco : (fun p => if p = 0 then chunkCall items 120 0 else .error e) (0 + 1)
        = (.error e : Except String (ℕ × List α)) := by
      simp
    calc paginate (fun p => if p = 0 then chunkCall items 120 0 else .error e) (fuel + 1)
        = paginateLoop (fun p => if p = 0 then chunkCall items 120 0 else .error e) 120
            (fuel + 1) 0 (items.take 50) [0] := by
          unfold paginate
          rw [hcz]
      _ = (.error e, [0, 1]) := by
          rw [paginateLoop_fail _ _ _ _ _ _ _ (by rw [l1]; decide) hco]
          rfl

theorem c8_pagination_witness :
    (List.range 120).length = 120 ∧
    (paginate (chunkCall (List.range 120) 120) (0 + 3) = (.ok (List.range 120), [0, 1, 2]) ∧
    paginate (fun _ => (.error "boom" : Except String (ℕ × List ℕ))) 0
      = (.error "boom", [0]) ∧
    paginate (fun p => if p = 0 then chunkCall (List.range 120) 120 0 else .error "boom")
        (0 + 1)
      = (.error "boom", [0, 1])) :=
  ⟨by decide, c8_pagination ℕ (List.range 120) "boom" 0 (by decide)⟩

/-! ### Order-book entries (book.go lines 5-17; unnamed/part_003 lines
3-13)

In book.go a `BookEntry` is a `[]string`; `Price` parses element 0 and
`Size` parses element 1 with `strconv.ParseFloat`, discarding the parse
error so that an unparsable string yields 0.  In part_003 a `BookEntry`
is a `[]float64` and the accessors return elements 0 and 1 directly.
Neither variant checks bounds, so a too-short slice panics at the index
expression: the panic is modelled as `none`, and the external
`strconv.ParseFloat` as an abstract `parseFloat` returning `none` exactly
on parse failure. -/

def BookEntryStr.Price (parseFloat : String → Option ℚ) (be : List String) : Option ℚ :=
  (be.get? 0).map fun s => (parseFloat s).getD 0

def BookEntryStr.Size (parseFloat : String → Option ℚ) (be : List String) : Option ℚ :=
  (be.get? 1).map fun s => (parseFloat s).getD 0

def BookEntryNum.Price (be : List ℚ) : Option ℚ :=
  be.get? 0

def BookEntryNum.Size (be : List ℚ) : Option ℚ :=
  be.get? 1

/-- C10: in both order-book variants, `Price` reads element 0 and `Size`
reads element 1 with no bounds check: on an entry of length at least 2
they return those elements (string variant: parsed, parse failure giving
0), and both accessors are defined (no panic) precisely when the entry
has length at least 2 — on shorter entries `Size` (and for the empty
entry also `Price`) panics, so length ≥ 2 is the precondition of the
accessor pair. -/
theorem c10_book_entry_bounds (parseFloat : String → Option ℚ) (p s : String)
    (r : List String) (x y : ℚ) (rf : List ℚ) (be : List String) (bf : List ℚ) :
    BookEntryStr.Price parseFloat (p :: s :: r) = some ((parseFloat p).getD 0) ∧
    BookEntryStr.Size parseFloat (p :: s :: r) = some ((parseFloat s).getD 0) ∧
    BookEntryNum.Price (x :: y :: rf) = some x ∧
    BookEntryNum.Size (x :: y :: rf) = some y ∧
    (((BookEntryStr.Price parseFloat be).isSome ∧ (BookEntryStr.Size parseFloat be).isSome)
      ↔ 2 ≤ be.length) ∧
    (((BookEntryNum.Price bf).isSome ∧ (BookEntryNum.Size bf).isSome) ↔ 2 ≤ bf.length) := by
  refine ⟨rfl, rfl, rfl, rfl, ?_, ?_⟩
  · cases be with
    | nil => simp [BookEntryStr.Price, BookEntryStr.Size]
    | cons a be' =>
      cases be' with
      | nil => simp [BookEntryStr.Price, BookEntryStr.Size, List.get?]
      | cons b t =>
        simp [BookEntryStr.Price, BookEntryStr.Size, List.get?]
  · cases bf with
    | nil => simp [BookEntryNum.Price, BookEntryNum.Size]
    | cons a bf' =>
      cases bf' with
      | nil => simp [BookEntryNum.Price, BookEntryNum.Size, List.get?]
      | cons b t =>
        simp [BookEntryNum.Price, BookEntryNum.Size, List.get?]

end CryptoDotCom
